import Mathlib

/-
Verification development for the motion_planning repository (Rust).

Shallow embedding conventions:
- The coordinate type T (instantiated at f64 in the code) is idealized as ℚ.
  Its associated constants (types.rs) become the rational constants below;
  f64::EPSILON is 2^-52 and f64::MAX is 2^1024 - 2^971, both exactly.
- Point, Boundaries, the collision-checker capability, the petgraph
  undirected graph, the HashMap canonical-key lookup and the rstar R-tree
  are embedded as plain structures and lists; NodeIndex is ℕ (petgraph
  hands out 0,1,2,... in insertion order).
- The canonical WKT key built by space.rs line 47 is the string
  POINT(a b) where BOTH a and b are the Display rendering of self.x
  (the y coordinate is never read).  Rust's f64 Display rendering is
  injective, so the string is faithfully modelled by the ordered pair of
  the two rendered numbers, here (x, x).
- f64 sqrt (Point::euclidean_distance, types.rs T::sqrt) has no exact ℚ
  counterpart; it is specified relationally by IsEuclideanDistanceOf, and
  RRT functions that embed the inline euclidean weight take the computed
  distance as an explicit parameter.
- Rust panics (HashMap unwrap, rand gen_range on an empty range) are
  modelled by Option, none meaning the call panics.
- rand gen_range lo..hi draws uniformly from the half-open interval; it is
  embedded as a function of a unit draw u with 0 ≤ u < 1.
-/

/-- MAX constant of the SpaceContinuous contract (types.rs), f64::MAX exactly. -/
def TMAX : ℚ := 2 ^ 1024 - 2 ^ 971

/-- EPSILON constant of the SpaceContinuous contract (types.rs), f64::EPSILON = 2^-52. -/
def EPSILON : ℚ := 1 / 2 ^ 52

/-- DEFAULT constant of the SpaceContinuous contract (types.rs). -/
def TDEFAULT : ℚ := 0

/-- Configuration Point of space.rs: a pair of coordinates. -/
structure Point where
  x : ℚ
  y : ℚ
deriving DecidableEq, Repr

/-- PartialEq for Point (space.rs lines 21-27): epsilon-tolerant equality,
true when both coordinate differences are strictly below EPSILON. -/
def Point.peq (a b : Point) : Prop :=
  |a.x - b.x| < EPSILON ∧ |a.y - b.y| < EPSILON

instance (a b : Point) : Decidable (Point.peq a b) := by
  unfold Point.peq; infer_instance

/-- Canonical textual key of a Point (space.rs line 47): the source formats
the string POINT(a b) with a = self.x and b = self.x, so the key is the
pair of rendered coordinates (x, x); the y coordinate does not enter. -/
def Point.toWkt (p : Point) : ℚ × ℚ :=
  (p.x, p.x)

/-- Squared Euclidean distance between two coordinate pairs, as computed by
the rstar R-tree distance_2 query used in PRM::connect_node_to_graph. -/
def sqDistC (a b : ℚ × ℚ) : ℚ :=
  (a.1 - b.1) * (a.1 - b.1) + (a.2 - b.2) * (a.2 - b.2)

/-- Specification of Point::euclidean_distance (space.rs lines 57-61):
d is the Euclidean distance of a and b when d is the nonnegative number
whose square is the sum of squared coordinate differences.  The f64 sqrt
has no exact rational counterpart, so the distance is specified
relationally rather than computed. -/
def IsEuclideanDistanceOf (a b : Point) (d : ℚ) : Prop :=
  0 ≤ d ∧ d * d = sqDistC (a.x, a.y) (b.x, b.y)

/-- Boundaries (boundaries.rs): axis-aligned region given by lower and
upper limits per axis.  The internal random generator is not part of the
state; random draws enter as explicit unit-interval arguments. -/
structure Boundaries where
  x_lower : ℚ
  x_upper : ℚ
  y_lower : ℚ
  y_upper : ℚ
deriving DecidableEq, Repr

/-- Boundaries::is_node_inside (boundaries.rs lines 67-85): four early
returns checking each closed-interval bound in turn. -/
def Boundaries.isNodeInside (b : Boundaries) (node : Point) : Bool :=
  if node.x < b.x_lower then false
  else if node.x > b.x_upper then false
  else if node.y < b.y_lower then false
  else if node.y > b.y_upper then false
  else true

/-- rand Rng::gen_range on the half-open range lo..hi, fed a unit draw u
with 0 ≤ u < 1.  The rand crate panics when the range is empty
(lo ≥ hi); the panic is modelled by none. -/
def genRange (lo hi u : ℚ) : Option ℚ :=
  if lo < hi then some (lo + u * (hi - lo)) else none

/-- Boundaries::generate_random_configuration (boundaries.rs lines 90-94):
one gen_range draw per axis, then Point::new. -/
def Boundaries.generateRandomConfiguration (b : Boundaries) (u v : ℚ) : Option Point := do
  let x ← genRange b.x_lower b.x_upper u
  let y ← genRange b.y_lower b.y_upper v
  pure (Point.mk x y)

/-- CollisionChecker capability (collision_checker.rs): point and segment
collision oracles, assumed pure. -/
structure CollisionChecker where
  isNodeColliding : Point → Bool
  isEdgeColliding : Point → Point → Bool

/-- NaiveCollisionChecker (collision_checker.rs): reports no collision ever. -/
def naiveCollisionChecker : CollisionChecker :=
  { isNodeColliding := fun _ => false, isEdgeColliding := fun _ _ => false }

/-- NodeIndex of petgraph: indices are handed out sequentially from 0. -/
abbrev NodeIndex := Nat

/-- Weighted edge of the undirected petgraph graph. -/
structure REdge where
  src : NodeIndex
  dst : NodeIndex
  w : ℚ
deriving DecidableEq, Repr

/-- Undirected petgraph graph with Point node payloads and ℚ edge weights:
node payloads listed in insertion order (position = NodeIndex), edges in
insertion order. -/
structure RGraph where
  nodes : List Point
  edges : List REdge
deriving DecidableEq, Repr

/-- petgraph Graph::add_node: appends the payload and returns the fresh
index, which equals the previous node count. -/
def RGraph.addNodeG (g : RGraph) (p : Point) : RGraph × NodeIndex :=
  ({ nodes := g.nodes ++ [p], edges := g.edges }, g.nodes.length)

/-- petgraph Graph::add_edge: appends an edge; petgraph accepts parallel
edges and self loops. -/
def RGraph.addEdgeG (g : RGraph) (a b : NodeIndex) (w : ℚ) : RGraph :=
  { g with edges := g.edges ++ [REdge.mk a b w] }

/-- petgraph Graph::node_count. -/
def RGraph.nodeCount (g : RGraph) : Nat :=
  g.nodes.length

/-- petgraph Graph::edge_count. -/
def RGraph.edgeCount (g : RGraph) : Nat :=
  g.edges.length

/-- Undirected adjacency used by the A* wrapper: an edge reaches n from
either endpoint. -/
def RGraph.neighborsOf (g : RGraph) (n : NodeIndex) : List (NodeIndex × ℚ) :=
  g.edges.filterMap fun e =>
    if e.src = n then some (e.dst, e.w)
    else if e.dst = n then some (e.src, e.w)
    else none

/-- HashMap String NodeIndex lookup keyed by canonical WKT keys, embedded
as an association list whose keys stay pairwise distinct (insert
overwrites an existing key in place). -/
abbrev Lookup := List ((ℚ × ℚ) × NodeIndex)

/-- HashMap::contains_key. -/
def Lookup.containsKey (m : Lookup) (k : ℚ × ℚ) : Bool :=
  m.any fun e => e.1 = k

/-- HashMap::get (the lookups the planners immediately unwrap). -/
def Lookup.getVal (m : Lookup) (k : ℚ × ℚ) : Option NodeIndex :=
  match m with
  | [] => none
  | e :: rest => if e.1 = k then some e.2 else Lookup.getVal rest k

/-- HashMap::insert: overwrites in place when the key is present, else
prepends a new entry (entry order is irrelevant to the behavior). -/
def Lookup.insertKV (m : Lookup) (k : ℚ × ℚ) (v : NodeIndex) : Lookup :=
  if m.containsKey k then m.map fun e => if e.1 = k then (k, v) else e
  else (k, v) :: m

/-- rstar RTree over raw coordinate pairs; insert appends (duplicates are
kept), size is the entry count. -/
abbrev RTreeQ := List (ℚ × ℚ)

/-- Insertion into a list sorted by ascending squared distance from the
query q; ties keep the earlier entry first.  Together with sortByDist this
models the order in which nearest_neighbor_iter yields tree entries. -/
def insertByDist (q : ℚ × ℚ) (x : ℚ × ℚ) : RTreeQ → RTreeQ
  | [] => [x]
  | y :: ys =>
    if sqDistC q x < sqDistC q y then x :: y :: ys
    else y :: insertByDist q x ys

/-- Tree entries sorted by ascending squared distance from q: the order in
which rstar nearest_neighbor_iter (and the with_distance_2 variant) yields
them. -/
def sortByDist (q : ℚ × ℚ) : RTreeQ → RTreeQ
  | [] => []
  | x :: xs => insertByDist q x (sortByDist q xs)

/-- rstar RTree::nearest_neighbor: some closest entry, none on an empty
tree. -/
def nearestNeighbor (q : ℚ × ℚ) (t : RTreeQ) : Option (ℚ × ℚ) :=
  match sortByDist q t with
  | [] => none
  | x :: _ => some x

/-- Solution stored by a planner: total cost and node index sequence, as
returned by petgraph astar. -/
abbrev Solution := Option (ℚ × List NodeIndex)

/-- Uniform-cost search realizing petgraph astar with the zero heuristic
the planners pass (prm.rs lines 235-241): returns the cost and node list
of a cheapest start-goal path, none when the goal is unreachable.  The
fuel bounds the search; the claims below never depend on the value this
returns, only on how the planners store it. -/
def astarGo (g : RGraph) (goal : NodeIndex) :
    Nat → List (ℚ × List NodeIndex × NodeIndex) → List NodeIndex → Solution
  | 0, _, _ => none
  | _ + 1, [], _ => none
  | fuel + 1, frontier, visited =>
    let best := frontier.foldl
      (fun acc c => if c.1 < acc.1 then c else acc)
      (frontier.headD (0, [], 0))
    let rest := frontier.erase best
    if best.2.2 = goal then some (best.1, (best.2.2 :: best.2.1).reverse)
    else if best.2.2 ∈ visited then astarGo g goal fuel rest visited
    else
      let expanded := (g.neighborsOf best.2.2).map
        (fun nb => (best.1 + nb.2, best.2.2 :: best.2.1, nb.1))
      astarGo g goal fuel (rest ++ expanded) (best.2.2 :: visited)

/-- petgraph astar with zero heuristic, cost = stored edge weight, goal
test by node index equality. -/
def astarZero (g : RGraph) (start goal : NodeIndex) : Solution :=
  astarGo g goal (g.nodeCount * g.edgeCount.succ * 4 + 4) [(0, [], start)] []

/-- PRM planner state (planner/prm.rs struct PRM): the Config fields
neighbor count and max graph size are inlined. -/
structure PRM where
  start : Point
  goal : Point
  boundaries : Boundaries
  graph : RGraph
  solution : Solution
  is_solved : Bool
  collision_checker : CollisionChecker
  tree : RTreeQ
  index_node_lookup : Lookup
  default_nearest_neighbors : Nat
  max_size : Nat

/-- PRM::add_node (planner/prm.rs lines 131-147): skip when the point
collides, skip when its canonical key is already present, else push the
node into the graph, the lookup and the R-tree together.  PRMstar::add_node
(planner/prm_star.rs lines 138-154) is textually identical, so this
definition embeds both. -/
def PRM.addNode (s : PRM) (node : Point) : PRM :=
  if s.collision_checker.isNodeColliding node then s
  else if s.index_node_lookup.containsKey node.toWkt then s
  else
    let gi := s.graph.addNodeG node
    { s with graph := gi.1,
             index_node_lookup := s.index_node_lookup.insertKV node.toWkt gi.2,
             tree := s.tree ++ [(node.x, node.y)] }

/-- PRM::init (planner/prm.rs lines 73-76) and PRMstar::init
(planner/prm_star.rs lines 82-85): add_node on start then goal; no
boundary check, no collision rejection beyond add_node's silent skip, and
no failure path. -/
def PRM.init (s : PRM) : PRM :=
  (s.addNode s.start).addNode s.goal

/-- PRM::add_random_node (planner/prm.rs lines 161-179): draw candidates
from a sample stream until one is neither colliding nor already keyed,
then add_node it and return it.  The stream position replaces the hidden
rng state; fuel bounds the rejection loop and none models
non-termination within the given fuel. -/
def PRM.addRandomNode : Nat → PRM → (Nat → Point) → Nat → Option (Point × PRM × Nat)
  | 0, _, _, _ => none
  | fuel + 1, s, stream, pos =>
    let candidate := stream pos
    if s.collision_checker.isNodeColliding candidate then
      PRM.addRandomNode fuel s stream (pos + 1)
    else if s.index_node_lookup.containsKey candidate.toWkt then
      PRM.addRandomNode fuel s stream (pos + 1)
    else
      some (candidate, s.addNode candidate, pos + 1)

/-- One iteration step of PRM::connect_node_to_graph: skip the neighbor
when it compares epsilon-equal to the node or the segment collides, else
look both canonical keys up (unwrap: none models the panic) and insert an
edge weighted by the squared distance the R-tree iterator reported. -/
def PRM.connectStep (node : Point) (s : PRM) (q : ℚ × ℚ) : Option PRM :=
  let neighborPoint := Point.mk q.1 q.2
  if Point.peq node neighborPoint ∨
      s.collision_checker.isEdgeColliding node neighborPoint = true then
    some s
  else do
    let a ← s.index_node_lookup.getVal node.toWkt
    let b ← s.index_node_lookup.getVal neighborPoint.toWkt
    some { s with graph := s.graph.addEdgeG a b (sqDistC (node.x, node.y) q) }

/-- PRM::connect_node_to_graph (planner/prm.rs lines 191-223): walk the
first default_nearest_neighbors entries of the distance-ordered neighbor
iterator and run connectStep on each. -/
def PRM.connectNodeToGraph (s : PRM) (node : Point) : Option PRM :=
  ((sortByDist (node.x, node.y) s.tree).take s.default_nearest_neighbors).foldlM
    (PRM.connectStep node) s

/-- PRM::check_solution (planner/prm.rs lines 226-243): unwrap the keys of
start and goal (none models the panic), run astar with zero heuristic, and
store the result together with its is_some flag. -/
def PRM.checkSolution (s : PRM) : Option PRM := do
  let st ← s.index_node_lookup.getVal s.start.toWkt
  let gl ← s.index_node_lookup.getVal s.goal.toWkt
  let sol := astarZero s.graph st gl
  some { s with solution := sol, is_solved := sol.isSome }

/-- PRM::is_termination_criteria_met (planner/prm.rs lines 246-248). -/
def PRM.isTerminationCriteriaMet (s : PRM) : Bool :=
  s.graph.nodeCount ≥ s.max_size

/-- PRM::get_solution_cost (planner/prm.rs lines 93-98): the sentinel
T::MAX when no solution is stored, else the stored cost. -/
def PRM.getSolutionCost (s : PRM) : ℚ :=
  match s.solution with
  | none => TMAX
  | some (cost, _) => cost

/-- PRM::solve (planner/prm.rs lines 78-88): loop drawing one accepted
sample, connecting it, recomputing the solution, and breaking once the
node count reaches max_size.  Outer fuel bounds loop iterations, inner
fuel is handed to each add_random_node rejection loop. -/
def PRM.solveFuel : Nat → Nat → PRM → (Nat → Point) → Nat → Option PRM
  | 0, _, _, _, _ => none
  | fuel + 1, innerFuel, s, stream, pos => do
    let r ← PRM.addRandomNode innerFuel s stream pos
    let s2 ← r.2.1.connectNodeToGraph r.1
    let s3 ← s2.checkSolution
    if s3.isTerminationCriteriaMet then some s3
    else PRM.solveFuel fuel innerFuel s3 stream r.2.2

/-- PRM state as built by PRM::new (planner/prm.rs lines 103-116) with the
given endpoints, boundaries and collision checker: empty graph, lookup and
tree, no solution, default Config values (10 neighbors, max_size 32). -/
def PRM.fresh (st gl : Point) (b : Boundaries) (cc : CollisionChecker) : PRM :=
  { start := st, goal := gl, boundaries := b,
    graph := { nodes := [], edges := [] }, solution := none, is_solved := false,
    collision_checker := cc, tree := [], index_node_lookup := [],
    default_nearest_neighbors := 10, max_size := 32 }

/-- RRT planner state (planner/rrt.rs struct RRT): coordinate type fixed
at f64 in the source; Config fields inlined as in the PRM state. -/
structure RRT where
  solution : Solution
  is_solved : Bool
  start : Point
  goal : Point
  graph : RGraph
  tree : RTreeQ
  index_node_lookup : Lookup
  boundaries : Boundaries
  collision_checker : CollisionChecker
  default_nearest_neighbors : Nat
  max_size : Nat

/-- RRT::add_node (planner/rrt.rs lines 177-182): unconditionally push the
node into the graph and the R-tree and insert its canonical key into the
lookup; no collision check and no duplicate check, so an existing key is
overwritten in place. -/
def RRT.addNode (s : RRT) (node : Point) : RRT :=
  let gi := s.graph.addNodeG node
  { s with graph := gi.1,
           index_node_lookup := s.index_node_lookup.insertKV node.toWkt gi.2,
           tree := s.tree ++ [(node.x, node.y)] }

/-- RRT::get_node_index (planner/rrt.rs lines 201-207): return the index
stored under the node's canonical key; when the key is absent, add the
node to the graph ALONE (neither the lookup nor the R-tree is touched)
and return the fresh index. -/
def RRT.getNodeIndex (s : RRT) (node : Point) : RRT × NodeIndex :=
  match s.index_node_lookup.getVal node.toWkt with
  | some index => (s, index)
  | none =>
    let gi := s.graph.addNodeG node
    ({ s with graph := gi.1 }, gi.2)

/-- RRT::add_edge (planner/rrt.rs lines 185-190): resolve both endpoints
through get_node_index and insert an edge weighted by the inline
euclidean distance.  The f64 sqrt value is passed in as dist; callers tie
it to IsEuclideanDistanceOf. -/
def RRT.addEdge (s : RRT) (b e : Point) (dist : ℚ) : RRT :=
  let si := s.getNodeIndex b
  let si2 := si.1.getNodeIndex e
  { si2.1 with graph := si2.1.graph.addEdgeG si.2 si2.2 dist }

/-- RRT::init (planner/rrt.rs lines 93-96): add_node on start then goal,
with no validation of any kind. -/
def RRT.init (s : RRT) : RRT :=
  (s.addNode s.start).addNode s.goal

/-- Loop body of RRT::add_point_to_graph: continue past neighbors whose
connecting segment collides, insert one edge neighbor-to-point for the
first clear neighbor, then break. -/
def RRT.spliceLoop (s : RRT) (point : Point) (dist : Point → Point → ℚ) :
    RTreeQ → RRT
  | [] => s
  | coords :: rest =>
    let neighbor := Point.mk coords.1 coords.2
    if s.collision_checker.isEdgeColliding neighbor point then
      RRT.spliceLoop s point dist rest
    else
      s.addEdge neighbor point (dist neighbor point)

/-- RRT::add_point_to_graph (planner/rrt.rs lines 214-230): walk the
neighbors of the point by ascending distance, and for the first one whose
connecting segment does not collide insert an edge neighbor-to-point; dist
supplies the inline euclidean weight for each candidate pair. -/
def RRT.addPointToGraph (s : RRT) (point : Point) (dist : Point → Point → ℚ) : RRT :=
  RRT.spliceLoop s point dist (sortByDist (point.x, point.y) s.tree)

/-- RRT::check_solution (planner/rrt.rs lines 233-254): splice goal then
start into the structure, unwrap both canonical keys (none models the
panic), run astar with zero heuristic and store result and flag. -/
def RRT.checkSolution (s : RRT) (dist : Point → Point → ℚ) : Option RRT := do
  let s1 := s.addPointToGraph s.goal dist
  let s2 := s1.addPointToGraph s.start dist
  let st ← s2.index_node_lookup.getVal s.start.toWkt
  let gl ← s2.index_node_lookup.getVal s.goal.toWkt
  let sol := astarZero s2.graph st gl
  some { s2 with solution := sol, is_solved := sol.isSome }

/-- RRT::get_solution_cost (planner/rrt.rs lines 133-138): f64::MAX when
no solution is stored, else the stored cost. -/
def RRT.getSolutionCost (s : RRT) : ℚ :=
  match s.solution with
  | none => TMAX
  | some (cost, _) => cost

/-- RRT state as built by RRT::default (planner/rrt.rs lines 141-156) but
with the given endpoints, boundaries and collision checker installed via
the setters; Config default: 10 neighbors, max_size 32. -/
def RRT.fresh (st gl : Point) (b : Boundaries) (cc : CollisionChecker) : RRT :=
  { solution := none, is_solved := false, start := st, goal := gl,
    graph := { nodes := [], edges := [] }, tree := [], index_node_lookup := [],
    boundaries := b, collision_checker := cc,
    default_nearest_neighbors := 10, max_size := 32 }

/-- Membership in the distance-sorted list is membership in the tree. -/
theorem mem_insertByDist {q x y : ℚ × ℚ} {l : RTreeQ} :
    y ∈ insertByDist q x l ↔ y = x ∨ y ∈ l := by
  induction l with
  | nil => simp [insertByDist]
  | cons a as ih =>
    by_cases h : sqDistC q x < sqDistC q a
    · simp [insertByDist, h]
    · simp only [insertByDist, if_neg h, List.mem_cons, ih]
      tauto

/-- Membership in the sorted neighbor order is membership in the tree. -/
theorem mem_sortByDist {q y : ℚ × ℚ} {l : RTreeQ} :
    y ∈ sortByDist q l ↔ y ∈ l := by
  induction l with
  | nil => simp [sortByDist]
  | cons a as ih => simp [sortByDist, mem_insertByDist, ih]

/-- Inserting key k makes containsKey k true. -/
theorem Lookup.containsKey_insertKV_self (m : Lookup) (k : ℚ × ℚ) (v : NodeIndex) :
    (m.insertKV k v).containsKey k = true := by
  unfold Lookup.insertKV
  by_cases h : m.containsKey k = true
  · simp only [h, if_true]
    rcases List.any_eq_true.mp h with ⟨e, he, hk⟩
    refine List.any_eq_true.mpr ⟨(k, v), List.mem_map.mpr ⟨e, he, ?_⟩, by simp⟩
    simp only [decide_eq_true_eq] at hk
    simp [hk]
  · simp only [Bool.not_eq_true] at h
    rw [if_neg (by simp [h])]
    simp [Lookup.containsKey]

/-- Insertion never removes a key. -/
theorem Lookup.containsKey_insertKV_mono (m : Lookup) (k k0 : ℚ × ℚ) (v : NodeIndex)
    (h : m.containsKey k0 = true) : (m.insertKV k v).containsKey k0 = true := by
  unfold Lookup.insertKV
  by_cases hc : m.containsKey k = true
  · simp only [hc, if_true]
    rcases List.any_eq_true.mp h with ⟨e, he, hk⟩
    simp only [decide_eq_true_eq] at hk
    by_cases hek : e.1 = k
    · refine List.any_eq_true.mpr ⟨(k, v), List.mem_map.mpr ⟨e, he, by simp [hek]⟩, ?_⟩
      simp [← hk, hek]
    · refine List.any_eq_true.mpr ⟨e, List.mem_map.mpr ⟨e, he, by simp [hek]⟩, by simp [hk]⟩
  · simp only [hc, if_false, Bool.false_eq_true]
    simp only [Lookup.containsKey, List.any_cons, Bool.or_eq_true]
    exact Or.inr h

/-- Inserting an already present key keeps the entry count. -/
theorem Lookup.length_insertKV_of_contains (m : Lookup) (k : ℚ × ℚ) (v : NodeIndex)
    (h : m.containsKey k = true) : (m.insertKV k v).length = m.length := by
  simp [Lookup.insertKV, h]

/-- Inserting a fresh key grows the entry count by one. -/
theorem Lookup.length_insertKV_of_fresh (m : Lookup) (k : ℚ × ℚ) (v : NodeIndex)
    (h : m.containsKey k = false) : (m.insertKV k v).length = m.length + 1 := by
  simp [Lookup.insertKV, h]

/-- A contained key resolves through getVal. -/
theorem Lookup.getVal_isSome_of_contains (m : Lookup) (k : ℚ × ℚ)
    (h : m.containsKey k = true) : ∃ i, m.getVal k = some i := by
  induction m with
  | nil => simp [Lookup.containsKey] at h
  | cons e rest ih =>
    by_cases hek : e.1 = k
    · exact ⟨e.2, by simp [Lookup.getVal, hek]⟩
    · simp only [Lookup.containsKey, List.any_cons, Bool.or_eq_true,
        decide_eq_true_eq] at h
      rcases h with h | h
      · exact absurd h hek
      · rcases ih h with ⟨i, hi⟩
        exact ⟨i, by simp [Lookup.getVal, hek, hi]⟩

/-- The key just inserted resolves to the inserted index. -/
theorem Lookup.getVal_insertKV_self (m : Lookup) (k : ℚ × ℚ) (v : NodeIndex) :
    (m.insertKV k v).getVal k = some v := by
  unfold Lookup.insertKV
  by_cases h : m.containsKey k = true
  · simp only [h, if_true]
    induction m with
    | nil => simp [Lookup.containsKey] at h
    | cons e rest ih =>
      by_cases hek : e.1 = k
      · simp [Lookup.getVal, hek]
      · simp only [Lookup.containsKey, List.any_cons, Bool.or_eq_true,
          decide_eq_true_eq] at h
        rcases h with h | h
        · exact absurd h hek
        · simpa [Lookup.getVal, hek] using ih h
  · simp [h, Lookup.getVal]

/-- C1.  The canonical key computed by Point::to_wkt is NOT built from
both coordinates: space.rs line 47 renders self.x twice, so the points
(1, 2) and (1, 3), whose y coordinates differ by 1 (vastly more than
EPSILON) and which are not even epsilon-equal, receive the identical
canonical key (the rendering of POINT(1 1)).  This contradicts the
claimed deterministic POINT(x y) form built from both coordinates. -/
theorem c1_to_wkt_ignores_y :
    Point.toWkt (Point.mk 1 2) = Point.toWkt (Point.mk 1 3) ∧
    Point.toWkt (Point.mk 1 2) = ((1 : ℚ), (1 : ℚ)) ∧
    ¬ Point.peq (Point.mk 1 2) (Point.mk 1 3) := by
  refine ⟨rfl, rfl, fun h => ?_⟩
  have := h.2
  norm_num [EPSILON, abs_lt] at this

/-- C10.  Point's epsilon-tolerant equality is symmetric, and it is not
transitive: with a = (0,0), b = (3·2^-54, 0), c = (3·2^-53, 0) we have
a == b and b == c (both coordinate gaps are 3·2^-54 < 2^-52) while
a != c (gap 3·2^-53 ≥ 2^-52), so the comparison is not an equivalence
relation. -/
theorem c10_peq_symm_not_trans :
    (∀ a b : Point, Point.peq a b → Point.peq b a) ∧
    Point.peq (Point.mk 0 0) (Point.mk (3 / 2 ^ 54) 0) ∧
    Point.peq (Point.mk (3 / 2 ^ 54) 0) (Point.mk (3 / 2 ^ 53) 0) ∧
    ¬ Point.peq (Point.mk 0 0) (Point.mk (3 / 2 ^ 53) 0) := by
  refine ⟨fun a b h => ⟨by rw [abs_sub_comm]; exact h.1, by rw [abs_sub_comm]; exact h.2⟩,
    ⟨?_, ?_⟩, ⟨?_, ?_⟩, fun h => ?_⟩
  · norm_num [EPSILON, abs_lt]
  · norm_num [EPSILON, abs_lt]
  · norm_num [EPSILON, abs_lt]
  · norm_num [EPSILON, abs_lt]
  · have := h.1
    norm_num [EPSILON, abs_lt] at this

/-- Witness for c10_peq_symm_not_trans: symmetry applied at the concrete
epsilon-equal pair of that theorem. -/
theorem c10_peq_symm_not_trans_witness :
    Point.peq (Point.mk (3 / 2 ^ 54) 0) (Point.mk 0 0) :=
  c10_peq_symm_not_trans.1 (Point.mk 0 0) (Point.mk (3 / 2 ^ 54) 0)
    c10_peq_symm_not_trans.2.1

/-- C7 counterexample.  Reversed bounds do NOT yield sampling from an
inverted range: rand gen_range on the empty range 1..0 panics (modelled by
none), so generate_random_configuration on boundaries with
x_lower = 1 > 0 = x_upper fails instead of returning a Point. -/
theorem c7_reversed_bounds_counterexample :
    (Boundaries.mk 1 0 0 1).generateRandomConfiguration 0 0 = none ∧
    genRange 1 0 0 = none := by
  constructor
  · simp [Boundaries.generateRandomConfiguration, genRange]
  · simp [genRange]

/-- C7 amended.  Sampling panics when a bound pair is reversed or
degenerate (lower ≥ upper gives an empty gen_range range); when both axes
satisfy lower < upper, sampling always succeeds and the returned point
lies inside the boundaries, in the half-open interval of each axis. -/
theorem c7_sampling_in_range (b : Boundaries) (u v : ℚ)
    (hx : b.x_lower < b.x_upper) (hy : b.y_lower < b.y_upper)
    (hu0 : 0 ≤ u) (hu1 : u < 1) (hv0 : 0 ≤ v) (hv1 : v < 1) :
    ∃ p : Point, b.generateRandomConfiguration u v = some p ∧
      b.isNodeInside p = true ∧
      b.x_lower ≤ p.x ∧ p.x < b.x_upper ∧ b.y_lower ≤ p.y ∧ p.y < b.y_upper := by
  refine ⟨Point.mk (b.x_lower + u * (b.x_upper - b.x_lower))
      (b.y_lower + v * (b.y_upper - b.y_lower)), ?_, ?_, ?_, ?_, ?_, ?_⟩
  · simp [Boundaries.generateRandomConfiguration, genRange, hx, hy]
  · have h1 : b.x_lower ≤ b.x_lower + u * (b.x_upper - b.x_lower) := by nlinarith
    have h2 : b.x_lower + u * (b.x_upper - b.x_lower) < b.x_upper := by nlinarith
    have h3 : b.y_lower ≤ b.y_lower + v * (b.y_upper - b.y_lower) := by nlinarith
    have h4 : b.y_lower + v * (b.y_upper - b.y_lower) < b.y_upper := by nlinarith
    simp only [Boundaries.isNodeInside]
    rw [if_neg (by simpa using not_lt.mpr h1)]
    rw [if_neg (by simpa using not_lt.mpr (le_of_lt h2))]
    rw [if_neg (by simpa using not_lt.mpr h3)]
    rw [if_neg (by simpa using not_lt.mpr (le_of_lt h4))]
  · dsimp only
    nlinarith
  · dsimp only
    nlinarith
  · dsimp only
    nlinarith
  · dsimp only
    nlinarith

/-- Witness for c7_sampling_in_range: boundaries 0..3 on both axes with
the midpoint unit draws. -/
theorem c7_sampling_in_range_witness :
    ∃ p : Point, (Boundaries.mk 0 3 0 3).generateRandomConfiguration (1/2) (1/2) = some p ∧
      (Boundaries.mk 0 3 0 3).isNodeInside p = true ∧
      (0:ℚ) ≤ p.x ∧ p.x < 3 ∧ (0:ℚ) ≤ p.y ∧ p.y < 3 :=
  c7_sampling_in_range (Boundaries.mk 0 3 0 3) (1/2) (1/2)
    (by norm_num) (by norm_num) (by norm_num) (by norm_num) (by norm_num) (by norm_num)

/-- C6 counterexample.  Deduplication is by canonical key, not by
epsilon-equality: (0,0) and (2^-53, 0) are epsilon-equal (their gap is
below EPSILON = 2^-52), yet their canonical keys differ, so inserting
the first and then the second grows the node count, the spatial index and
the lookup from 1 to 2 — the second insertion is not a no-op. -/
theorem c6_epsilon_insert_counterexample :
    Point.peq (Point.mk 0 0) (Point.mk (1 / 2 ^ 53) 0) ∧
    (let s0 := PRM.fresh (Point.mk 0 0) (Point.mk 3 3) (Boundaries.mk 0 3 0 3)
        naiveCollisionChecker
     let s1 := s0.addNode (Point.mk 0 0)
     let s2 := s1.addNode (Point.mk (1 / 2 ^ 53) 0)
     s1.graph.nodeCount = 1 ∧ s1.tree.length = 1 ∧ s1.index_node_lookup.length = 1 ∧
     s2.graph.nodeCount = 2 ∧ s2.tree.length = 2 ∧ s2.index_node_lookup.length = 2) := by
  constructor
  · constructor <;> norm_num [EPSILON, abs_lt]
  · norm_num [PRM.addNode, PRM.fresh, naiveCollisionChecker, Lookup.containsKey,
      Lookup.insertKV, Point.toWkt, RGraph.addNodeG, RGraph.nodeCount, Prod.ext_iff]

/-- C6 amended.  Insertion is idempotent up to canonical-KEY equality
(not epsilon-equality): adding a point whose canonical key is already in
the lookup returns the state unchanged, so inserting p and then any q
with the same canonical key leaves the whole state — in particular node
count, spatial-index size and lookup size — unchanged after the first
insertion. -/
theorem c6_insert_idempotent_on_key (s : PRM) (p q : Point)
    (hk : q.toWkt = p.toWkt)
    (hc : s.collision_checker.isNodeColliding p = false) :
    (s.addNode p).addNode q = s.addNode p ∧
    ∀ r : Point, s.index_node_lookup.containsKey r.toWkt = true → s.addNode r = s := by
  have hpresent : ∀ (t : PRM) (r : Point),
      t.index_node_lookup.containsKey r.toWkt = true → t.addNode r = t := by
    intro t r hr
    unfold PRM.addNode
    by_cases hcr : t.collision_checker.isNodeColliding r = true
    · simp [hcr]
    · simp only [Bool.not_eq_true] at hcr
      simp [hcr, hr]
  refine ⟨?_, hpresent s⟩
  by_cases hcont : s.index_node_lookup.containsKey p.toWkt = true
  · have h1 : s.addNode p = s := hpresent s p hcont
    rw [h1]
    exact hpresent s q (by rw [hk]; exact hcont)
  · have h1 : s.addNode p =
        { s with graph := (s.graph.addNodeG p).1,
                 index_node_lookup :=
                   s.index_node_lookup.insertKV p.toWkt (s.graph.addNodeG p).2,
                 tree := s.tree ++ [(p.x, p.y)] } := by
      unfold PRM.addNode
      simp [hc, hcont]
    refine hpresent (s.addNode p) q ?_
    rw [h1, hk]
    exact Lookup.containsKey_insertKV_self _ _ _

/-- Witness for c6_insert_idempotent_on_key: a fresh planner and the point
(0,0) inserted twice (identical canonical keys). -/
theorem c6_insert_idempotent_on_key_witness :
    (let s := PRM.fresh (Point.mk 0 0) (Point.mk 3 3) (Boundaries.mk 0 3 0 3)
        naiveCollisionChecker
     (s.addNode (Point.mk 0 0)).addNode (Point.mk 0 0) = s.addNode (Point.mk 0 0)) :=
  (c6_insert_idempotent_on_key
    (PRM.fresh (Point.mk 0 0) (Point.mk 3 3) (Boundaries.mk 0 3 0 3) naiveCollisionChecker)
    (Point.mk 0 0) (Point.mk 0 0) rfl rfl).1

/-- C3 counterexample.  init is not fatal on an invalid start: with
boundaries 0..3 the start (-1,-1) is outside (is_node_inside is false),
yet PRM::init completes normally and inserts BOTH endpoints as the first
two nodes — no boundary check exists on the init path (planner/prm.rs
lines 73-76), and a colliding endpoint is merely skipped by add_node
rather than terminating the caller. -/
theorem c3_init_no_validation_counterexample :
    (Boundaries.mk 0 3 0 3).isNodeInside (Point.mk (-1) (-1)) = false ∧
    (PRM.init (PRM.fresh (Point.mk (-1) (-1)) (Point.mk 3 3) (Boundaries.mk 0 3 0 3)
        naiveCollisionChecker)).graph.nodes = [Point.mk (-1) (-1), Point.mk 3 3] ∧
    (PRM.init (PRM.fresh (Point.mk 0 0) (Point.mk 3 3) (Boundaries.mk 0 3 0 3)
        (CollisionChecker.mk (fun p => p = Point.mk 0 0) (fun _ _ => false)))).graph.nodes
      = [Point.mk 3 3] := by
  refine ⟨?_, ?_, ?_⟩
  · norm_num [Boundaries.isNodeInside]
  · norm_num [PRM.init, PRM.addNode, PRM.fresh, naiveCollisionChecker,
      Lookup.containsKey, Lookup.insertKV, Point.toWkt, RGraph.addNodeG, Prod.ext_iff]
  · norm_num [PRM.init, PRM.addNode, PRM.fresh,
      Lookup.containsKey, Lookup.insertKV, Point.toWkt, RGraph.addNodeG, Prod.ext_iff]

/-- C3 amended.  init performs no validation and has no failure path: it
runs add_node on start then goal; whenever the two endpoints are
collision-free and have distinct canonical keys (boundaries play no role
at all), they are inserted as the first two nodes of the graph, for PRM,
PRM* (same init body) and RRT alike; RRT's init inserts them even without
any precondition on collisions. -/
theorem c3_init_inserts_start_goal (st gl : Point) (b : Boundaries) (cc : CollisionChecker)
    (h1 : cc.isNodeColliding st = false) (h2 : cc.isNodeColliding gl = false)
    (h3 : st.toWkt ≠ gl.toWkt) :
    (PRM.init (PRM.fresh st gl b cc)).graph.nodes = [st, gl] ∧
    (RRT.init (RRT.fresh st gl b cc)).graph.nodes = [st, gl] := by
  constructor
  · have hck : Lookup.containsKey [(st.toWkt, 0)] gl.toWkt = false := by
      simp [Lookup.containsKey, h3]
    simp [PRM.init, PRM.addNode, PRM.fresh, h1, h2, h3, Lookup.containsKey,
      Lookup.insertKV, RGraph.addNodeG, hck]
  · simp [RRT.init, RRT.addNode, RRT.fresh, RGraph.addNodeG]

/-- Witness for c3_init_inserts_start_goal: collision-free endpoints
(0,0) and (3,3) with the naive checker. -/
theorem c3_init_inserts_start_goal_witness :
    (PRM.init (PRM.fresh (Point.mk 0 0) (Point.mk 3 3) (Boundaries.mk 0 3 0 3)
        naiveCollisionChecker)).graph.nodes = [Point.mk 0 0, Point.mk 3 3] ∧
    (RRT.init (RRT.fresh (Point.mk 0 0) (Point.mk 3 3) (Boundaries.mk 0 3 0 3)
        naiveCollisionChecker)).graph.nodes = [Point.mk 0 0, Point.mk 3 3] :=
  c3_init_inserts_start_goal (Point.mk 0 0) (Point.mk 3 3) (Boundaries.mk 0 3 0 3)
    naiveCollisionChecker rfl rfl (by norm_num [Point.toWkt, Prod.ext_iff])

/-- Colliding points are silently skipped by PRM::add_node. -/
theorem PRM.addNode_of_colliding (s : PRM) (p : Point)
    (h : s.collision_checker.isNodeColliding p = true) : s.addNode p = s := by
  simp [PRM.addNode, h]

/-- A point whose canonical key is present is skipped by PRM::add_node
(whether or not it collides). -/
theorem PRM.addNode_of_contains (s : PRM) (p : Point)
    (h : s.index_node_lookup.containsKey p.toWkt = true) : s.addNode p = s := by
  unfold PRM.addNode
  by_cases hc : s.collision_checker.isNodeColliding p = true
  · simp [hc]
  · simp only [Bool.not_eq_true] at hc
    simp [hc, h]

/-- A collision-free point with a fresh canonical key is pushed into the
graph, the lookup and the R-tree together by PRM::add_node. -/
theorem PRM.addNode_fresh_eq (s : PRM) (p : Point)
    (hc : s.collision_checker.isNodeColliding p = false)
    (hk : s.index_node_lookup.containsKey p.toWkt = false) :
    s.addNode p =
      { s with graph := (s.graph.addNodeG p).1,
               index_node_lookup :=
                 s.index_node_lookup.insertKV p.toWkt (s.graph.addNodeG p).2,
               tree := s.tree ++ [(p.x, p.y)] } := by
  simp [PRM.addNode, hc, hk]

/-- PRM::add_node only rewrites the graph, the lookup and the tree; every
other field of the planner state is untouched. -/
theorem PRM.addNode_shape (s : PRM) (p : Point) :
    s.addNode p =
      { s with graph := (s.addNode p).graph,
               index_node_lookup := (s.addNode p).index_node_lookup,
               tree := (s.addNode p).tree } := by
  unfold PRM.addNode
  by_cases hc : s.collision_checker.isNodeColliding p = true
  · simp [hc]
  · simp only [Bool.not_eq_true] at hc
    by_cases hk : s.index_node_lookup.containsKey p.toWkt = true
    · simp [hc, hk]
    · simp only [Bool.not_eq_true] at hk
      simp [hc, hk]

/-- One connect iteration only appends edges: the resulting state is the
input state with a new edge list. -/
theorem PRM.connectStep_shape (node : Point) (s : PRM) (q : ℚ × ℚ) (s2 : PRM)
    (h : PRM.connectStep node s q = some s2) :
    s2 = { s with graph := { s.graph with edges := s2.graph.edges } } := by
  unfold PRM.connectStep at h
  by_cases hskip : Point.peq node (Point.mk q.1 q.2) ∨
      s.collision_checker.isEdgeColliding node (Point.mk q.1 q.2) = true
  · simp only [hskip, if_true, Option.some.injEq] at h
    subst h
    rfl
  · simp only [hskip, if_false] at h
    cases ha : s.index_node_lookup.getVal node.toWkt with
    | none => simp [ha] at h
    | some a =>
      cases hb : s.index_node_lookup.getVal (Point.mk q.1 q.2).toWkt with
      | none => simp [ha, hb] at h
      | some b =>
        rw [ha, hb] at h
        injection h with h2
        subst h2
        rfl

/-- The connect fold over any neighbor list only appends edges. -/
theorem PRM.connectFold_shape (node : Point) :
    ∀ (l : List (ℚ × ℚ)) (s s2 : PRM),
      l.foldlM (PRM.connectStep node) s = some s2 →
      s2 = { s with graph := { s.graph with edges := s2.graph.edges } } := by
  intro l
  induction l with
  | nil =>
    intro s s2 h
    simp only [List.foldlM_nil, Option.pure_def, Option.some.injEq] at h
    subst h
    rfl
  | cons q rest ih =>
    intro s s2 h
    simp only [List.foldlM_cons] at h
    cases h1 : PRM.connectStep node s q with
    | none => simp [h1] at h
    | some s1 =>
      simp only [h1, Option.bind_some] at h
      have e1 := PRM.connectStep_shape node s q s1 h1
      have e2 := ih s1 s2 h
      rw [e2, e1]

/-- PRM::connect_node_to_graph only appends edges. -/
theorem PRM.connectNodeToGraph_shape (s : PRM) (node : Point) (s2 : PRM)
    (h : s.connectNodeToGraph node = some s2) :
    s2 = { s with graph := { s.graph with edges := s2.graph.edges } } :=
  PRM.connectFold_shape node _ s s2 h

/-- PRM::check_solution only rewrites the solution and its flag. -/
theorem PRM.checkSolution_shape (s s2 : PRM) (h : s.checkSolution = some s2) :
    s2 = { s with solution := s2.solution, is_solved := s2.is_solved } := by
  unfold PRM.checkSolution at h
  cases ha : s.index_node_lookup.getVal s.start.toWkt with
  | none => simp [ha] at h
  | some a =>
    cases hb : s.index_node_lookup.getVal s.goal.toWkt with
    | none => simp [ha, hb] at h
    | some b =>
      rw [ha, hb] at h
      injection h with h2
      subst h2
      rfl

/-- Planner operations of the PRM/PRM* state machine that are reachable
from solve and init: the single insertion path, the connect step (none
models its unwrap panic), and the solution recomputation. -/
inductive PRMOp where
  | addNodeOp (p : Point)
  | connectOp (p : Point)
  | checkSolutionOp
  | initOp

/-- Apply one planner operation. -/
def PRM.applyOp (s : PRM) : PRMOp → Option PRM
  | PRMOp.addNodeOp p => some (s.addNode p)
  | PRMOp.connectOp p => s.connectNodeToGraph p
  | PRMOp.checkSolutionOp => s.checkSolution
  | PRMOp.initOp => some s.init

/-- Run a sequence of planner operations. -/
def PRM.runOps (s : PRM) : List PRMOp → Option PRM
  | [] => some s
  | op :: rest =>
    match s.applyOp op with
    | none => none
    | some s2 => s2.runOps rest

/-- The triple-structure invariant: graph node count, canonical-key
lookup size and spatial index size agree. -/
def PRM.sizesAligned (s : PRM) : Prop :=
  s.graph.nodeCount = s.index_node_lookup.length ∧ s.graph.nodeCount = s.tree.length

/-- PRM::add_node moves the three structures together. -/
theorem PRM.addNode_sizesAligned (s : PRM) (p : Point) (h : s.sizesAligned) :
    (s.addNode p).sizesAligned := by
  by_cases hc : s.collision_checker.isNodeColliding p = true
  · rw [PRM.addNode_of_colliding s p hc]; exact h
  · simp only [Bool.not_eq_true] at hc
    by_cases hk : s.index_node_lookup.containsKey p.toWkt = true
    · rw [PRM.addNode_of_contains s p hk]; exact h
    · simp only [Bool.not_eq_true] at hk
      rw [PRM.addNode_fresh_eq s p hc hk]
      refine ⟨?_, ?_⟩
      · simp only [RGraph.nodeCount, RGraph.addNodeG, List.length_append,
          List.length_singleton]
        rw [Lookup.length_insertKV_of_fresh _ _ _ hk]
        exact congrArg (· + 1) h.1
      · simp only [RGraph.nodeCount, RGraph.addNodeG, List.length_append,
          List.length_singleton]
        exact congrArg (· + 1) h.2

/-- C2 counterexample.  RRT breaks the triple-structure invariant on a
reachable operation: RRT::init with start (1,2) and goal (1,3) — two
distinct points that share the canonical key (1 rendered twice) — adds
two graph nodes and two R-tree entries but only ONE lookup entry, because
RRT::add_node performs no duplicate check and HashMap::insert overwrites
the key in place.  Moreover RRT::get_node_index on an unknown point grows
the graph alone, leaving lookup and R-tree untouched. -/
theorem c2_rrt_counterexample :
    (let s := RRT.init (RRT.fresh (Point.mk 1 2) (Point.mk 1 3) (Boundaries.mk 0 3 0 3)
        naiveCollisionChecker)
     s.graph.nodeCount = 2 ∧ s.tree.length = 2 ∧ s.index_node_lookup.length = 1) ∧
    (let t := (RRT.fresh (Point.mk 0 0) (Point.mk 3 3) (Boundaries.mk 0 3 0 3)
        naiveCollisionChecker).getNodeIndex (Point.mk 5 5)
     t.1.graph.nodeCount = 1 ∧ t.1.tree.length = 0 ∧ t.1.index_node_lookup.length = 0) := by
  constructor
  · norm_num [RRT.init, RRT.addNode, RRT.fresh, naiveCollisionChecker, Lookup.containsKey,
      Lookup.insertKV, Point.toWkt, RGraph.addNodeG, RGraph.nodeCount, Prod.ext_iff]
  · norm_num [RRT.getNodeIndex, RRT.fresh, naiveCollisionChecker, Lookup.getVal,
      Point.toWkt, RGraph.addNodeG, RGraph.nodeCount]

/-- C2 amended.  For PRM and PRM* (which share the add_node body) the
invariant does hold: starting from any state where graph node count,
lookup size and spatial-index size agree — in particular the freshly
constructed planner, whose three structures are empty — every sequence of
planner operations (add_node, connect_node_to_graph, check_solution,
init) that completes keeps the three sizes equal; add_node moves all
three together and no operation mutates one of them alone.  RRT is
excluded: its add_node/get_node_index violate the invariant (see the
counterexample). -/
theorem c2_prm_triple_sync (s s2 : PRM) (ops : List PRMOp)
    (h0 : s.sizesAligned) (h : s.runOps ops = some s2) :
    s2.sizesAligned := by
  induction ops generalizing s with
  | nil =>
    unfold PRM.runOps at h
    injection h with h2
    subst h2
    exact h0
  | cons op rest ih =>
    unfold PRM.runOps at h
    cases hop : s.applyOp op with
    | none => rw [hop] at h; simp at h
    | some s1 =>
      rw [hop] at h
      refine ih s1 ?_ h
      cases op with
      | addNodeOp p =>
        have : s1 = s.addNode p := by
          simpa [PRM.applyOp] using hop.symm
        subst this
        exact PRM.addNode_sizesAligned s p h0
      | connectOp p =>
        have hshape := PRM.connectNodeToGraph_shape s p s1 (by simpa [PRM.applyOp] using hop)
        have hn : s1.graph.nodes = s.graph.nodes := by rw [hshape]
        have hl : s1.index_node_lookup = s.index_node_lookup := by rw [hshape]
        have ht : s1.tree = s.tree := by rw [hshape]
        refine ⟨?_, ?_⟩
        · show s1.graph.nodes.length = s1.index_node_lookup.length
          rw [hn, hl]; exact h0.1
        · show s1.graph.nodes.length = s1.tree.length
          rw [hn, ht]; exact h0.2
      | checkSolutionOp =>
        have hshape := PRM.checkSolution_shape s s1 (by simpa [PRM.applyOp] using hop)
        have hn : s1.graph.nodes = s.graph.nodes := by rw [hshape]
        have hl : s1.index_node_lookup = s.index_node_lookup := by rw [hshape]
        have ht : s1.tree = s.tree := by rw [hshape]
        refine ⟨?_, ?_⟩
        · show s1.graph.nodes.length = s1.index_node_lookup.length
          rw [hn, hl]; exact h0.1
        · show s1.graph.nodes.length = s1.tree.length
          rw [hn, ht]; exact h0.2
      | initOp =>
        have : s1 = s.init := by
          simpa [PRM.applyOp] using hop.symm
        subst this
        exact PRM.addNode_sizesAligned _ _ (PRM.addNode_sizesAligned _ _ h0)

/-- Witness for c2_prm_triple_sync: a fresh planner run through init and
one add_node keeps the three sizes equal. -/
theorem c2_prm_triple_sync_witness :
    ((PRM.fresh (Point.mk 0 0) (Point.mk 3 3) (Boundaries.mk 0 3 0 3)
        naiveCollisionChecker).init.addNode (Point.mk 1 1)).sizesAligned :=
  c2_prm_triple_sync
    (PRM.fresh (Point.mk 0 0) (Point.mk 3 3) (Boundaries.mk 0 3 0 3) naiveCollisionChecker)
    ((PRM.fresh (Point.mk 0 0) (Point.mk 3 3) (Boundaries.mk 0 3 0 3)
        naiveCollisionChecker).init.addNode (Point.mk 1 1))
    [PRMOp.initOp, PRMOp.addNodeOp (Point.mk 1 1)]
    ⟨rfl, rfl⟩ rfl

/-- EPSILON of the coordinate contract is positive. -/
theorem EPSILON_pos : 0 < EPSILON := by
  norm_num [EPSILON]

/-- Epsilon-tolerant equality is reflexive (both gaps vanish). -/
theorem Point.peq_refl (p : Point) : Point.peq p p := by
  constructor <;> simpa using EPSILON_pos

/-- A successful getVal returns an entry of the list. -/
theorem Lookup.getVal_mem (m : Lookup) (k : ℚ × ℚ) (v : NodeIndex)
    (h : m.getVal k = some v) : (k, v) ∈ m := by
  induction m with
  | nil => simp [Lookup.getVal] at h
  | cons e rest ih =>
    by_cases hek : e.1 = k
    · simp only [Lookup.getVal, hek, if_true, Option.some.injEq] at h
      have he : e = (k, v) := by
        calc e = (e.1, e.2) := rfl
          _ = (k, v) := by rw [hek, h]
      rw [← he]
      exact List.mem_cons_self e rest
    · simp only [Lookup.getVal, hek, if_false] at h
      exact List.mem_cons_of_mem e (ih h)

/-- When the stored indices are pairwise distinct, getVal is injective on
keys: two keys resolving to the same index must be the same key. -/
theorem Lookup.getVal_inj_of_pairwise (m : Lookup)
    (hp : m.Pairwise fun e1 e2 => e1.2 ≠ e2.2) :
    ∀ k1 k2 v, m.getVal k1 = some v → m.getVal k2 = some v → k1 = k2 := by
  intro k1 k2 v h1 h2
  have m1 := Lookup.getVal_mem m k1 v h1
  have m2 := Lookup.getVal_mem m k2 v h2
  rcases List.mem_iff_get.mp m1 with ⟨i, hi⟩
  rcases List.mem_iff_get.mp m2 with ⟨j, hj⟩
  have hpg := List.pairwise_iff_get.mp hp
  rcases lt_trichotomy (i : Nat) (j : Nat) with hij | hij | hij
  · exact absurd (by rw [hi, hj]) (hpg ⟨i, i.2⟩ ⟨j, j.2⟩ hij)
  · have : (k1, v) = (k2, v) := by
      rw [← hi, ← hj]
      congr 1
      exact Fin.ext hij
    exact congrArg Prod.fst this
  · exact absurd (by rw [hj, hi]) (hpg ⟨j, j.2⟩ ⟨i, i.2⟩ hij)

/-- Connect-fold never creates a self loop when the lookup is injective
and the node is the only tree entry carrying its canonical key. -/
theorem PRM.connectFold_no_self_loop (node : Point) (tset : RTreeQ) (lookup0 : Lookup)
    (hinj : ∀ k1 k2 v, lookup0.getVal k1 = some v → lookup0.getVal k2 = some v → k1 = k2)
    (huni : ∀ q ∈ tset, (Point.mk q.1 q.2).toWkt = node.toWkt → q = (node.x, node.y)) :
    ∀ (l : List (ℚ × ℚ)) (s s2 : PRM), (∀ q ∈ l, q ∈ tset) →
      s.index_node_lookup = lookup0 →
      l.foldlM (PRM.connectStep node) s = some s2 →
      ∀ e ∈ s2.graph.edges, e ∈ s.graph.edges ∨ e.src ≠ e.dst := by
  intro l
  induction l with
  | nil =>
    intro s s2 _ _ h e he
    simp only [List.foldlM_nil, Option.pure_def, Option.some.injEq] at h
    subst h
    exact Or.inl he
  | cons q rest ih =>
    intro s s2 hsub hlk h e he
    simp only [List.foldlM_cons] at h
    cases h1 : PRM.connectStep node s q with
    | none => simp [h1] at h
    | some s1 =>
      simp only [h1, Option.bind_some] at h
      have hlk1 : s1.index_node_lookup = lookup0 := by
        have := PRM.connectStep_shape node s q s1 h1
        rw [this]
        exact hlk
      have step := ih s1 s2 (fun r hr => hsub r (List.mem_cons_of_mem q hr)) hlk1 h e he
      rcases step with hmem | hne
      · -- the edge already existed after the single step; analyze that step
        unfold PRM.connectStep at h1
        by_cases hskip : Point.peq node (Point.mk q.1 q.2) ∨
            s.collision_checker.isEdgeColliding node (Point.mk q.1 q.2) = true
        · simp only [hskip, if_true, Option.some.injEq] at h1
          subst h1
          exact Or.inl hmem
        · simp only [hskip, if_false] at h1
          cases ha : s.index_node_lookup.getVal node.toWkt with
          | none => simp [ha] at h1
          | some a =>
            cases hb : s.index_node_lookup.getVal (Point.mk q.1 q.2).toWkt with
            | none => simp [ha, hb] at h1
            | some b =>
              rw [ha, hb] at h1
              injection h1 with h12
              subst h12
              simp only [RGraph.addEdgeG, List.mem_append, List.mem_singleton] at hmem
              rcases hmem with hmem | hmem
              · exact Or.inl hmem
              · refine Or.inr ?_
                subst hmem
                show a ≠ b
                intro hab
                subst hab
                have hk : node.toWkt = (Point.mk q.1 q.2).toWkt :=
                  hinj _ _ a (hlk ▸ ha) (hlk ▸ hb)
                have hq : q = (node.x, node.y) :=
                  huni q (hsub q (List.mem_cons_self q rest)) hk.symm
                have : Point.mk q.1 q.2 = node := by
                  rw [hq]
                exact hskip (Or.inl (this ▸ Point.peq_refl node))
      · exact Or.inr hne

/-- C5 amended.  For PRM (and PRM*, same skip logic plus the same lookup
discipline), connect_node_to_graph adds no self loop whenever the lookup
maps distinct keys to distinct indices and the querying node is the only
R-tree entry bearing its canonical key — invariants that the PRM
insertion path maintains, since add_node refuses duplicate keys.  RRT is
excluded: its add_edge resolves both endpoints through the same lookup
entry and petgraph then stores a genuine self loop (see the
counterexample). -/
theorem c5_prm_no_self_loop (s s2 : PRM) (node : Point)
    (hinj : ∀ k1 k2 v, s.index_node_lookup.getVal k1 = some v →
      s.index_node_lookup.getVal k2 = some v → k1 = k2)
    (huni : ∀ q ∈ s.tree, (Point.mk q.1 q.2).toWkt = node.toWkt → q = (node.x, node.y))
    (h : s.connectNodeToGraph node = some s2) :
    ∀ e ∈ s2.graph.edges, e ∈ s.graph.edges ∨ e.src ≠ e.dst := by
  refine PRM.connectFold_no_self_loop node s.tree s.index_node_lookup hinj huni
    _ s s2 (fun q hq => ?_) rfl h
  exact mem_sortByDist.mp (List.take_subset _ _ hq)

/-- C5 counterexample.  RRT adds genuine self loops: after init with
start (0,0) and goal (3,3), RRT::add_point_to_graph on the goal — the
splice RRT::check_solution performs on every iteration — finds the goal
itself as its own nearest neighbor (distance 0), the segment does not
collide, and add_edge resolves both endpoints to the same node index 1,
so petgraph stores the self-loop edge (1,1) and the edge count rises from
0 to 1.  The weight 0 passed for the splice is the true euclidean
distance of the pair. -/
theorem c5_rrt_self_loop_counterexample :
    (let s := RRT.init (RRT.fresh (Point.mk 0 0) (Point.mk 3 3) (Boundaries.mk 0 3 0 3)
        naiveCollisionChecker)
     let s2 := s.addPointToGraph (Point.mk 3 3) (fun _ _ => 0)
     s.graph.edgeCount = 0 ∧ s2.graph.edgeCount = 1 ∧
     s2.graph.edges = [REdge.mk 1 1 0]) ∧
    IsEuclideanDistanceOf (Point.mk 3 3) (Point.mk 3 3) 0 ∧
    (REdge.mk 1 1 (0 : ℚ)).src = (REdge.mk 1 1 (0 : ℚ)).dst := by
  refine ⟨?_, ⟨le_refl 0, by norm_num [sqDistC]⟩, rfl⟩
  norm_num [RRT.init, RRT.addNode, RRT.fresh, RRT.addPointToGraph, RRT.spliceLoop,
    RRT.addEdge, RRT.getNodeIndex, naiveCollisionChecker, sortByDist, insertByDist,
    sqDistC, Lookup.insertKV, Lookup.containsKey, Lookup.getVal, Point.toWkt,
    RGraph.addNodeG, RGraph.addEdgeG, RGraph.edgeCount, RGraph.nodeCount, Prod.ext_iff]

/-- Concrete two-node PRM state used to witness the connect lemmas: nodes
(0,0) and (3,3) inserted the way PRM::init lays them out. -/
def prmTwoNodes : PRM :=
  { PRM.fresh (Point.mk 0 0) (Point.mk 3 3) (Boundaries.mk 0 3 0 3) naiveCollisionChecker with
    graph := { nodes := [Point.mk 0 0, Point.mk 3 3], edges := [] },
    tree := [(0, 0), (3, 3)],
    index_node_lookup := [((0, 0), 0), ((3, 3), 1)] }

/-- Result of connecting (3,3) to prmTwoNodes: one edge from node 1 to
node 0 carrying the squared distance 18. -/
def prmTwoNodesConnected : PRM :=
  { prmTwoNodes with
    graph := { nodes := [Point.mk 0 0, Point.mk 3 3],
               edges := [REdge.mk 1 0 18] } }

/-- Evaluation fact shared by the connect witnesses: connect (3,3) on the
two-node state skips the node itself and inserts exactly the edge (1,0)
weighted by the squared distance 18. -/
theorem prmTwoNodes_connect_eval :
    prmTwoNodes.connectNodeToGraph (Point.mk 3 3) = some prmTwoNodesConnected := by
  norm_num [PRM.connectNodeToGraph, PRM.connectStep, prmTwoNodes, prmTwoNodesConnected,
    PRM.fresh, naiveCollisionChecker, sortByDist, insertByDist, sqDistC,
    Lookup.getVal, Point.toWkt, Point.peq, EPSILON, abs_lt,
    RGraph.addEdgeG, Prod.ext_iff]

/-- Witness for c5_prm_no_self_loop: the two-node state, whose lookup is
injective and whose tree holds one entry per canonical key; the single
edge the connect run inserted is not a self loop. -/
theorem c5_prm_no_self_loop_witness :
    REdge.mk 1 0 18 ∈ prmTwoNodes.graph.edges ∨
      (REdge.mk 1 0 (18 : ℚ)).src ≠ (REdge.mk 1 0 (18 : ℚ)).dst := by
  refine c5_prm_no_self_loop prmTwoNodes prmTwoNodesConnected (Point.mk 3 3)
    (Lookup.getVal_inj_of_pairwise _ ?_) ?_ prmTwoNodes_connect_eval
    (REdge.mk 1 0 18) (by simp [prmTwoNodesConnected])
  · norm_num [prmTwoNodes, PRM.fresh]
  · intro q hq hk
    simp only [prmTwoNodes, PRM.fresh, List.mem_cons, List.mem_singleton] at hq
    rcases hq with hq | hq | hq
    · exfalso
      rw [hq] at hk
      norm_num [Point.toWkt, Prod.ext_iff] at hk
    · rw [hq]
    · exact absurd hq (List.not_mem_nil q)

/-- Connect-fold weight provenance: every edge the fold adds carries the
squared distance from the querying node to some tree entry, exactly the
value the with_distance_2 iterator reported. -/
theorem PRM.connectFold_weights (node : Point) (tset : RTreeQ) :
    ∀ (l : List (ℚ × ℚ)) (s s2 : PRM), (∀ q ∈ l, q ∈ tset) →
      l.foldlM (PRM.connectStep node) s = some s2 →
      ∀ e ∈ s2.graph.edges, e ∈ s.graph.edges ∨
        ∃ q ∈ tset, e.w = sqDistC (node.x, node.y) q := by
  intro l
  induction l with
  | nil =>
    intro s s2 _ h e he
    simp only [List.foldlM_nil, Option.pure_def, Option.some.injEq] at h
    subst h
    exact Or.inl he
  | cons q rest ih =>
    intro s s2 hsub h e he
    simp only [List.foldlM_cons] at h
    cases h1 : PRM.connectStep node s q with
    | none => simp [h1] at h
    | some s1 =>
      simp only [h1, Option.bind_some] at h
      have step := ih s1 s2 (fun r hr => hsub r (List.mem_cons_of_mem q hr)) h e he
      rcases step with hmem | hw
      · unfold PRM.connectStep at h1
        by_cases hskip : Point.peq node (Point.mk q.1 q.2) ∨
            s.collision_checker.isEdgeColliding node (Point.mk q.1 q.2) = true
        · simp only [hskip, if_true, Option.some.injEq] at h1
          subst h1
          exact Or.inl hmem
        · simp only [hskip, if_false] at h1
          cases ha : s.index_node_lookup.getVal node.toWkt with
          | none => simp [ha] at h1
          | some a =>
            cases hb : s.index_node_lookup.getVal (Point.mk q.1 q.2).toWkt with
            | none => simp [ha, hb] at h1
            | some b =>
              rw [ha, hb] at h1
              injection h1 with h12
              subst h12
              simp only [RGraph.addEdgeG, List.mem_append, List.mem_singleton] at hmem
              rcases hmem with hmem | hmem
              · exact Or.inl hmem
              · subst hmem
                exact Or.inr ⟨q, hsub q (List.mem_cons_self q rest), rfl⟩
      · exact Or.inr hw

/-- Concrete PRM state for the C4 counterexample: nodes (0,0) and (3,4),
whose euclidean distance is exactly 5. -/
def prmC4State : PRM :=
  { PRM.fresh (Point.mk 0 0) (Point.mk 3 4) (Boundaries.mk 0 5 0 5) naiveCollisionChecker with
    graph := { nodes := [Point.mk 0 0, Point.mk 3 4], edges := [] },
    tree := [(0, 0), (3, 4)],
    index_node_lookup := [((0, 0), 0), ((3, 3), 1)] }

/-- Result of connecting (3,4) in prmC4State: one edge weighted 25, the
squared distance. -/
def prmC4Connected : PRM :=
  { prmC4State with
    graph := { nodes := [Point.mk 0 0, Point.mk 3 4],
               edges := [REdge.mk 1 0 25] } }

/-- C4 counterexample.  PRM::connect_node_to_graph (planner/prm.rs lines
191-223) never calls the Optimizer (the PRM struct does not even hold
one); it stores the squared distance reported by
nearest_neighbor_iter_with_distance_2.  Connecting (3,4) to a graph
holding (0,0) inserts the edge weight 25, while the Default optimizer
cost — the euclidean distance — is 5, and 25 is not the euclidean
distance of the pair. -/
theorem c4_weight_counterexample :
    prmC4State.connectNodeToGraph (Point.mk 3 4) = some prmC4Connected ∧
    prmC4Connected.graph.edges = [REdge.mk 1 0 25] ∧
    IsEuclideanDistanceOf (Point.mk 3 4) (Point.mk 0 0) 5 ∧
    ¬ IsEuclideanDistanceOf (Point.mk 3 4) (Point.mk 0 0) 25 := by
  refine ⟨?_, rfl, ⟨by norm_num, by norm_num [sqDistC]⟩, fun hc => ?_⟩
  · norm_num [PRM.connectNodeToGraph, PRM.connectStep, prmC4State, prmC4Connected,
      PRM.fresh, naiveCollisionChecker, sortByDist, insertByDist, sqDistC,
      Lookup.getVal, Point.toWkt, Point.peq, EPSILON, abs_lt,
      RGraph.addEdgeG, Prod.ext_iff]
  · have := hc.2
    norm_num [sqDistC] at this

/-- C4 amended.  Every edge PRM's connect step inserts between the new
node and a neighbor carries the SQUARED euclidean distance from the node
to that neighbor as computed by the spatial index, not the Optimizer
cost; the Optimizer collaborator is consulted only by PRM*. -/
theorem c4_prm_edge_weight_is_squared_distance (s s2 : PRM) (node : Point)
    (h : s.connectNodeToGraph node = some s2) :
    ∀ e ∈ s2.graph.edges, e ∈ s.graph.edges ∨
      ∃ q ∈ s.tree, e.w = sqDistC (node.x, node.y) q := by
  refine PRM.connectFold_weights node s.tree _ s s2 (fun q hq => ?_) h
  exact mem_sortByDist.mp (List.take_subset _ _ hq)

/-- Witness for c4_prm_edge_weight_is_squared_distance: the C4 state,
where the single inserted edge indeed carries a squared distance to a
tree entry. -/
theorem c4_prm_edge_weight_is_squared_distance_witness :
    REdge.mk 1 0 25 ∈ prmC4State.graph.edges ∨
      ∃ q ∈ prmC4State.tree,
        (REdge.mk 1 0 (25 : ℚ)).w = sqDistC ((Point.mk 3 4).x, (Point.mk 3 4).y) q :=
  c4_prm_edge_weight_is_squared_distance prmC4State prmC4Connected (Point.mk 3 4)
    (by norm_num [PRM.connectNodeToGraph, PRM.connectStep, prmC4State, prmC4Connected,
      PRM.fresh, naiveCollisionChecker, sortByDist, insertByDist, sqDistC,
      Lookup.getVal, Point.toWkt, Point.peq, EPSILON, abs_lt,
      RGraph.addEdgeG, Prod.ext_iff])
    (REdge.mk 1 0 25) (by simp [prmC4Connected])

/-- C9.  Solution reporting for PRM (planner/prm.rs lines 93-98) and RRT
(planner/rrt.rs lines 133-138): when no solution is stored
get_solution_cost returns the coordinate contract's sentinel T::MAX
(f64::MAX) and check_solution has set is_solved to false; when a solution
is stored, get_solution_cost returns exactly its cost; after any
successful check_solution the is_solved flag equals presence of the
stored solution, so an unsolvable roadmap reports unsolved with the
sentinel cost. -/
theorem c9_solution_cost_sentinel :
    (∀ s : PRM, s.solution = none → s.getSolutionCost = TMAX) ∧
    (∀ (s : PRM) (c : ℚ) (p : List NodeIndex),
      s.solution = some (c, p) → s.getSolutionCost = c) ∧
    (∀ s s2 : PRM, s.checkSolution = some s2 → s2.is_solved = s2.solution.isSome) ∧
    (∀ s : RRT, s.solution = none → s.getSolutionCost = TMAX) ∧
    (∀ (s : RRT) (c : ℚ) (p : List NodeIndex),
      s.solution = some (c, p) → s.getSolutionCost = c) ∧
    (∀ (s s2 : RRT) (dist : Point → Point → ℚ),
      s.checkSolution dist = some s2 → s2.is_solved = s2.solution.isSome) := by
  refine ⟨?_, ?_, ?_, ?_, ?_, ?_⟩
  · intro s h
    simp [PRM.getSolutionCost, h]
  · intro s c p h
    simp [PRM.getSolutionCost, h]
  · intro s s2 h
    unfold PRM.checkSolution at h
    cases ha : s.index_node_lookup.getVal s.start.toWkt with
    | none => simp [ha] at h
    | some a =>
      cases hb : s.index_node_lookup.getVal s.goal.toWkt with
      | none => simp [ha, hb] at h
      | some b =>
        rw [ha, hb] at h
        injection h with h2
        subst h2
        rfl
  · intro s h
    simp [RRT.getSolutionCost, h]
  · intro s c p h
    simp [RRT.getSolutionCost, h]
  · intro s s2 dist h
    unfold RRT.checkSolution at h
    dsimp only at h
    cases ha : ((s.addPointToGraph s.goal dist).addPointToGraph s.start
        dist).index_node_lookup.getVal s.start.toWkt with
    | none => simp [ha] at h
    | some a =>
      cases hb : ((s.addPointToGraph s.goal dist).addPointToGraph s.start
          dist).index_node_lookup.getVal s.goal.toWkt with
      | none => simp [ha, hb] at h
      | some b =>
        rw [ha, hb] at h
        injection h with h2
        subst h2
        rfl

/-- Concrete RRT state for the C9 witness: both endpoint keys resolvable,
edgeless graph, so check_solution stores no solution. -/
def rrtC9State : RRT :=
  { RRT.fresh (Point.mk 0 0) (Point.mk 3 3) (Boundaries.mk 0 3 0 3) naiveCollisionChecker with
    graph := { nodes := [Point.mk 0 0, Point.mk 3 3], edges := [] },
    index_node_lookup := [((0, 0), 0), ((3, 3), 1)] }

/-- Witness for c9_solution_cost_sentinel: a fresh PRM reports the
sentinel, the two-node edgeless states run check_solution successfully
and end coherent (unsolved with absent solution), and a stored solution's
cost is returned. -/
theorem c9_solution_cost_sentinel_witness :
    (PRM.fresh (Point.mk 0 0) (Point.mk 3 3) (Boundaries.mk 0 3 0 3)
        naiveCollisionChecker).getSolutionCost = TMAX ∧
    (RRT.fresh (Point.mk 0 0) (Point.mk 3 3) (Boundaries.mk 0 3 0 3)
        naiveCollisionChecker).getSolutionCost = TMAX ∧
    ({ prmTwoNodes with solution := some (7, [0, 1]) } : PRM).getSolutionCost = 7 ∧
    prmTwoNodes.is_solved = prmTwoNodes.solution.isSome ∧
    rrtC9State.is_solved = rrtC9State.solution.isSome := by
  refine ⟨c9_solution_cost_sentinel.1 _ rfl,
    c9_solution_cost_sentinel.2.2.2.1 _ rfl,
    c9_solution_cost_sentinel.2.1 _ 7 [0, 1] rfl,
    c9_solution_cost_sentinel.2.2.1 prmTwoNodes prmTwoNodes ?_,
    c9_solution_cost_sentinel.2.2.2.2.2 rrtC9State rrtC9State (fun _ _ => 0) ?_⟩
  · norm_num [PRM.checkSolution, prmTwoNodes, PRM.fresh, Lookup.getVal, Point.toWkt,
      astarZero, astarGo, RGraph.neighborsOf, RGraph.nodeCount, RGraph.edgeCount,
      Prod.ext_iff]
  · norm_num [RRT.checkSolution, RRT.addPointToGraph, RRT.spliceLoop, rrtC9State,
      RRT.fresh, sortByDist, insertByDist, naiveCollisionChecker, Lookup.getVal,
      Point.toWkt, astarZero, astarGo, RGraph.neighborsOf, RGraph.nodeCount,
      RGraph.edgeCount, Prod.ext_iff]

/-- A key contained after an insert is the inserted key or was already
there. -/
theorem Lookup.containsKey_insertKV_elim (m : Lookup) (k k0 : ℚ × ℚ) (v : NodeIndex)
    (h : (m.insertKV k v).containsKey k0 = true) :
    k0 = k ∨ m.containsKey k0 = true := by
  by_cases hc : m.containsKey k = true
  · rw [Lookup.insertKV, if_pos hc] at h
    rcases List.any_eq_true.mp h with ⟨e, he, hk⟩
    simp only [decide_eq_true_eq] at hk
    rcases List.mem_map.mp he with ⟨e0, he0, hfe⟩
    by_cases h0 : e0.1 = k
    · simp only [h0, if_true] at hfe
      left
      rw [← hk, ← hfe]
    · simp only [h0, if_false] at hfe
      right
      refine List.any_eq_true.mpr ⟨e0, he0, ?_⟩
      simp [hfe ▸ hk]
  · rw [Lookup.insertKV, if_neg hc] at h
    simp only [Lookup.containsKey, List.any_cons, Bool.or_eq_true,
      decide_eq_true_eq] at h
    rcases h with h | h
    · exact Or.inl h.symm
    · exact Or.inr h

/-- One connect iteration always succeeds when both canonical keys are
resolvable. -/
theorem PRM.connectStep_total (node : Point) (s : PRM) (q : ℚ × ℚ)
    (hnode : s.index_node_lookup.containsKey node.toWkt = true)
    (hq : s.index_node_lookup.containsKey (Point.mk q.1 q.2).toWkt = true) :
    ∃ s1, PRM.connectStep node s q = some s1 := by
  unfold PRM.connectStep
  by_cases hskip : Point.peq node (Point.mk q.1 q.2) ∨
      s.collision_checker.isEdgeColliding node (Point.mk q.1 q.2) = true
  · exact ⟨s, by simp [hskip]⟩
  · rcases Lookup.getVal_isSome_of_contains _ _ hnode with ⟨a, ha⟩
    rcases Lookup.getVal_isSome_of_contains _ _ hq with ⟨b, hb⟩
    refine ⟨{ s with graph := s.graph.addEdgeG a b (sqDistC (node.x, node.y) q) }, ?_⟩
    rw [if_neg hskip, ha, hb]
    rfl

/-- The whole connect fold succeeds when the node's key and every
neighbor key are resolvable. -/
theorem PRM.connectFold_total (node : Point) :
    ∀ (l : List (ℚ × ℚ)) (s : PRM),
      s.index_node_lookup.containsKey node.toWkt = true →
      (∀ q ∈ l, s.index_node_lookup.containsKey (Point.mk q.1 q.2).toWkt = true) →
      ∃ s2, l.foldlM (PRM.connectStep node) s = some s2 := by
  intro l
  induction l with
  | nil => exact fun s _ _ => ⟨s, rfl⟩
  | cons q rest ih =>
    intro s hnode hq
    rcases PRM.connectStep_total node s q hnode (hq q (List.mem_cons_self q rest))
      with ⟨s1, h1⟩
    have hlk : s1.index_node_lookup = s.index_node_lookup := by
      rw [PRM.connectStep_shape node s q s1 h1]
    rcases ih s1 (by rw [hlk]; exact hnode)
      (fun r hr => by rw [hlk]; exact hq r (List.mem_cons_of_mem q hr)) with ⟨s2, h2⟩
    exact ⟨s2, by simp [List.foldlM_cons, h1, h2]⟩

/-- check_solution succeeds when both endpoint keys are resolvable. -/
theorem PRM.checkSolution_total (s : PRM)
    (hs : s.index_node_lookup.containsKey s.start.toWkt = true)
    (hg : s.index_node_lookup.containsKey s.goal.toWkt = true) :
    ∃ s2, s.checkSolution = some s2 := by
  rcases Lookup.getVal_isSome_of_contains _ _ hs with ⟨a, ha⟩
  rcases Lookup.getVal_isSome_of_contains _ _ hg with ⟨b, hb⟩
  refine ⟨{ s with solution := astarZero s.graph a b, is_solved := (astarZero s.graph a b).isSome }, ?_⟩
  unfold PRM.checkSolution
  rw [ha, hb]
  rfl

/-- The rejection loop of add_random_node accepts a collision-free,
fresh-keyed candidate immediately. -/
theorem PRM.addRandomNode_fresh (s : PRM) (stream : Nat → Point) (pos : Nat)
    (hcol : s.collision_checker.isNodeColliding (stream pos) = false)
    (hkey : s.index_node_lookup.containsKey (stream pos).toWkt = false) :
    PRM.addRandomNode 1 s stream pos = some (stream pos, s.addNode (stream pos), pos + 1) := by
  simp [PRM.addRandomNode, hcol, hkey]

/-- Every key of m is either a key of the base lookup or the canonical
key of an already consumed stream sample. -/
def keysBoundBy (m base : Lookup) (stream : Nat → Point) (pos : Nat) : Prop :=
  ∀ k, m.containsKey k = true →
    base.containsKey k = true ∨ ∃ j, j < pos ∧ k = (stream j).toWkt

/-- Sampling keeps yielding fresh collision-free configurations: no
sample collides, the canonical keys of the samples are pairwise distinct,
and none of them is already keyed in the base lookup. -/
def freshStream (base : Lookup) (cc : CollisionChecker) (stream : Nat → Point) : Prop :=
  (∀ i, cc.isNodeColliding (stream i) = false) ∧
  (∀ i j, (stream i).toWkt = (stream j).toWkt → i = j) ∧
  (∀ i, base.containsKey (stream i).toWkt = false)

/-- Invariant carried through the solve loop: installed collaborators and
limit, resolvable endpoint keys, resolvable tree keys, and the key bound
of keysBoundBy. -/
def PRM.solveInv (base : Lookup) (cc : CollisionChecker) (k : Nat)
    (stream : Nat → Point) (s : PRM) (pos : Nat) : Prop :=
  s.collision_checker = cc ∧ s.max_size = k ∧
  s.index_node_lookup.containsKey s.start.toWkt = true ∧
  s.index_node_lookup.containsKey s.goal.toWkt = true ∧
  (∀ q ∈ s.tree, s.index_node_lookup.containsKey (Point.mk q.1 q.2).toWkt = true) ∧
  keysBoundBy s.index_node_lookup base stream pos

/-- One iteration of PRM::solve under a fresh stream: the sampled node is
accepted at once, connect and check_solution succeed, the node count
rises by exactly one, and the invariant moves to the next position. -/
theorem PRM.solveRound (base : Lookup) (cc : CollisionChecker) (k : Nat)
    (stream : Nat → Point) (hfs : freshStream base cc stream) (s : PRM) (pos : Nat)
    (hinv : PRM.solveInv base cc k stream s pos) :
    ∃ s2 s3,
      PRM.addRandomNode 1 s stream pos = some (stream pos, s.addNode (stream pos), pos + 1) ∧
      (s.addNode (stream pos)).connectNodeToGraph (stream pos) = some s2 ∧
      s2.checkSolution = some s3 ∧
      s3.graph.nodeCount = s.graph.nodeCount + 1 ∧
      s3.max_size = k ∧
      PRM.solveInv base cc k stream s3 (pos + 1) := by
  obtain ⟨hcc, hms, hstart, hgoal, htree, hbound⟩ := hinv
  have hcol : s.collision_checker.isNodeColliding (stream pos) = false := by
    rw [hcc]; exact hfs.1 pos
  have hkey : s.index_node_lookup.containsKey (stream pos).toWkt = false := by
    cases hk : s.index_node_lookup.containsKey (stream pos).toWkt with
    | false => rfl
    | true =>
      rcases hbound _ hk with hb | ⟨j, hj, hkj⟩
      · exact absurd hb (by simp [hfs.2.2 pos])
      · exact absurd (hfs.2.1 pos j hkj) (by omega)
  have h1 := PRM.addRandomNode_fresh s stream pos hcol hkey
  have hA := PRM.addNode_fresh_eq s (stream pos) hcol hkey
  have hAl : (s.addNode (stream pos)).index_node_lookup =
      s.index_node_lookup.insertKV (stream pos).toWkt (s.graph.addNodeG (stream pos)).2 := by
    rw [hA]
  have hAt : (s.addNode (stream pos)).tree =
      s.tree ++ [((stream pos).x, (stream pos).y)] := by rw [hA]
  have hAn : (s.addNode (stream pos)).graph.nodes = s.graph.nodes ++ [stream pos] := by
    rw [hA]; rfl
  have hAs : (s.addNode (stream pos)).start = s.start := by rw [hA]
  have hAg : (s.addNode (stream pos)).goal = s.goal := by rw [hA]
  have hAc : (s.addNode (stream pos)).collision_checker = s.collision_checker := by rw [hA]
  have hAm : (s.addNode (stream pos)).max_size = s.max_size := by rw [hA]
  have hnodeA : (s.addNode (stream pos)).index_node_lookup.containsKey
      (stream pos).toWkt = true := by
    rw [hAl]; exact Lookup.containsKey_insertKV_self _ _ _
  have htreeA : ∀ q ∈ (s.addNode (stream pos)).tree,
      (s.addNode (stream pos)).index_node_lookup.containsKey
        (Point.mk q.1 q.2).toWkt = true := by
    intro q hq
    rw [hAt] at hq
    rw [hAl]
    rcases List.mem_append.mp hq with hq | hq
    · exact Lookup.containsKey_insertKV_mono _ _ _ _ (htree q hq)
    · rw [List.mem_singleton.mp hq]
      exact Lookup.containsKey_insertKV_self _ _ _
  obtain ⟨s2, h2⟩ := PRM.connectFold_total (stream pos)
    (((sortByDist ((stream pos).x, (stream pos).y)
        (s.addNode (stream pos)).tree)).take
      (s.addNode (stream pos)).default_nearest_neighbors)
    (s.addNode (stream pos)) hnodeA
    (fun q hq => htreeA q (mem_sortByDist.mp (List.take_subset _ _ hq)))
  have h2c : (s.addNode (stream pos)).connectNodeToGraph (stream pos) = some s2 := h2
  have hsh2 := PRM.connectNodeToGraph_shape _ _ _ h2c
  have h2l : s2.index_node_lookup = (s.addNode (stream pos)).index_node_lookup := by
    rw [hsh2]
  have h2t : s2.tree = (s.addNode (stream pos)).tree := by rw [hsh2]
  have h2n : s2.graph.nodes = (s.addNode (stream pos)).graph.nodes := by rw [hsh2]
  have h2s : s2.start = s.start := by rw [hsh2, hAs]
  have h2g : s2.goal = s.goal := by rw [hsh2, hAg]
  have h2cc : s2.collision_checker = s.collision_checker := by rw [hsh2, hAc]
  have h2m : s2.max_size = s.max_size := by rw [hsh2, hAm]
  obtain ⟨s3, h3⟩ := PRM.checkSolution_total s2
    (by rw [h2l, h2s, hAl]; exact Lookup.containsKey_insertKV_mono _ _ _ _ hstart)
    (by rw [h2l, h2g, hAl]; exact Lookup.containsKey_insertKV_mono _ _ _ _ hgoal)
  have hsh3 := PRM.checkSolution_shape _ _ h3
  have h3l : s3.index_node_lookup = s2.index_node_lookup := by rw [hsh3]
  have h3t : s3.tree = s2.tree := by rw [hsh3]
  have h3n : s3.graph.nodes = s2.graph.nodes := by rw [hsh3]
  have h3s : s3.start = s.start := by rw [hsh3]; exact h2s
  have h3g : s3.goal = s.goal := by rw [hsh3]; exact h2g
  have h3cc : s3.collision_checker = s.collision_checker := by rw [hsh3]; exact h2cc
  have h3m : s3.max_size = s.max_size := by rw [hsh3]; exact h2m
  refine ⟨s2, s3, h1, h2c, h3, ?_, by rw [h3m, hms], ?_⟩
  · show s3.graph.nodes.length = s.graph.nodes.length + 1
    rw [h3n, h2n, hAn, List.length_append, List.length_singleton]
  · refine ⟨by rw [h3cc, hcc], by rw [h3m, hms], ?_, ?_, ?_, ?_⟩
    · rw [h3l, h2l, h3s, hAl]
      exact Lookup.containsKey_insertKV_mono _ _ _ _ hstart
    · rw [h3l, h2l, h3g, hAl]
      exact Lookup.containsKey_insertKV_mono _ _ _ _ hgoal
    · intro q hq
      rw [h3t, h2t] at hq
      rw [h3l, h2l]
      exact htreeA q hq
    · intro key hkc
      rw [h3l, h2l, hAl] at hkc
      rcases Lookup.containsKey_insertKV_elim _ _ _ _ hkc with hek | hold
      · exact Or.inr ⟨pos, Nat.lt_succ_self pos, hek⟩
      · rcases hbound key hold with hb | ⟨j, hj, hkj⟩
        · exact Or.inl hb
        · exact Or.inr ⟨j, Nat.lt_succ_of_lt hj, hkj⟩

/-- Solve-loop specification: under a fresh stream, given enough fuel,
the loop completes and stops at the first post-insertion check — the
final node count is the old count plus one when the threshold was already
met, and exactly the threshold k otherwise. -/
theorem PRM.solveFuel_spec (base : Lookup) (cc : CollisionChecker) (stream : Nat → Point)
    (hfs : freshStream base cc stream) :
    ∀ (fuel : Nat) (s : PRM) (pos k : Nat),
      PRM.solveInv base cc k stream s pos →
      1 ≤ fuel → k ≤ s.graph.nodeCount + fuel →
      ∃ s4, PRM.solveFuel fuel 1 s stream pos = some s4 ∧
        s4.graph.nodeCount =
          (if k ≤ s.graph.nodeCount then s.graph.nodeCount + 1 else k) := by
  intro fuel
  induction fuel with
  | zero =>
    intro s pos k _ h1 _
    omega
  | succ f ih =>
    intro s pos k hinv _ hcap
    obtain ⟨s2, s3, h1, h2, h3, hcount, hm, hinv3⟩ :=
      PRM.solveRound base cc k stream hfs s pos hinv
    have e0 : PRM.solveFuel (f + 1) 1 s stream pos =
        Option.bind (PRM.addRandomNode 1 s stream pos) (fun r =>
          Option.bind (r.2.1.connectNodeToGraph r.1) (fun s2 =>
            Option.bind s2.checkSolution (fun s3 =>
              if s3.isTerminationCriteriaMet then some s3
              else PRM.solveFuel f 1 s3 stream r.2.2))) := rfl
    have hstep : PRM.solveFuel (f + 1) 1 s stream pos =
        (if s3.isTerminationCriteriaMet then some s3
         else PRM.solveFuel f 1 s3 stream (pos + 1)) := by
      simp only [e0, h1, h2, h3, Option.some_bind, Option.bind_some]
    by_cases ht : k ≤ s.graph.nodeCount + 1
    · have hterm : s3.isTerminationCriteriaMet = true := by
        simp [PRM.isTerminationCriteriaMet, hm, hcount, ht]
      refine ⟨s3, ?_, ?_⟩
      · rw [hstep, if_pos hterm]
      · rw [hcount]
        split_ifs <;> omega
    · have hterm : s3.isTerminationCriteriaMet = false := by
        simp only [PRM.isTerminationCriteriaMet, hm, hcount, ge_iff_le,
          decide_eq_false_iff_not]
        omega
      have h1f : 1 ≤ f := by omega
      have hcap2 : k ≤ s3.graph.nodeCount + f := by rw [hcount]; omega
      obtain ⟨s4, h4, hc4⟩ := ih s3 (pos + 1) k hinv3 h1f hcap2
      refine ⟨s4, ?_, ?_⟩
      · rw [hstep, if_neg (by simp [hterm])]
        exact h4
      · rw [hc4, hcount]
        split_ifs <;> omega

/-- C8.  Termination of PRM::solve with max_size = k: whenever sampling
keeps yielding fresh collision-free configurations (no sample collides,
sample keys are pairwise distinct and not yet in the lookup) and the
planner state resolves its endpoint and tree keys (as any state reached
through init and add_node does), solve terminates within max_size + 1
iterations of one accepted sample each; at return the node count is at
least k, and since the termination check runs after every insertion the
final count is exactly k when the threshold was not yet reached, and the
prior count plus a single insertion otherwise — never an arbitrary
overshoot. -/
theorem c8_prm_solve_terminates (s : PRM) (stream : Nat → Point)
    (hcol : ∀ i, s.collision_checker.isNodeColliding (stream i) = false)
    (hinj : ∀ i j, (stream i).toWkt = (stream j).toWkt → i = j)
    (hnew : ∀ i, s.index_node_lookup.containsKey (stream i).toWkt = false)
    (hstart : s.index_node_lookup.containsKey s.start.toWkt = true)
    (hgoal : s.index_node_lookup.containsKey s.goal.toWkt = true)
    (htree : ∀ q ∈ s.tree,
      s.index_node_lookup.containsKey (Point.mk q.1 q.2).toWkt = true) :
    ∃ s4, PRM.solveFuel (s.max_size + 1) 1 s stream 0 = some s4 ∧
      s.max_size ≤ s4.graph.nodeCount ∧
      s4.graph.nodeCount =
        (if s.max_size ≤ s.graph.nodeCount then s.graph.nodeCount + 1
         else s.max_size) := by
  have hfs : freshStream s.index_node_lookup s.collision_checker stream :=
    ⟨hcol, hinj, hnew⟩
  have hinv : PRM.solveInv s.index_node_lookup s.collision_checker s.max_size stream s 0 :=
    ⟨rfl, rfl, hstart, hgoal, htree, fun k hk => Or.inl hk⟩
  obtain ⟨s4, h4, hc4⟩ := PRM.solveFuel_spec s.index_node_lookup s.collision_checker
    stream hfs (s.max_size + 1) s 0 s.max_size hinv (by omega) (by omega)
  refine ⟨s4, h4, ?_, hc4⟩
  rw [hc4]
  split_ifs <;> omega

/-- Stream of pairwise key-distinct, in-bounds half-integer samples used
by the C8 witness. -/
def halfIntStream (i : Nat) : Point :=
  Point.mk ((2 * (i : ℚ) + 1) / 2) 0

/-- Witness for c8_prm_solve_terminates: the two-node roadmap (0,0),(3,3)
with the naive collision checker and the half-integer sample stream. -/
theorem c8_prm_solve_terminates_witness :
    ∃ s4, PRM.solveFuel (prmTwoNodes.max_size + 1) 1 prmTwoNodes halfIntStream 0 = some s4 ∧
      prmTwoNodes.max_size ≤ s4.graph.nodeCount ∧
      s4.graph.nodeCount =
        (if prmTwoNodes.max_size ≤ prmTwoNodes.graph.nodeCount then
          prmTwoNodes.graph.nodeCount + 1
         else prmTwoNodes.max_size) := by
  refine c8_prm_solve_terminates prmTwoNodes halfIntStream
    (fun i => rfl) ?_ ?_ (by norm_num [prmTwoNodes, PRM.fresh, Lookup.containsKey,
      Point.toWkt, Prod.ext_iff])
    (by norm_num [prmTwoNodes, PRM.fresh, Lookup.containsKey, Point.toWkt, Prod.ext_iff])
    ?_
  · intro i j h
    have h1 : (2 * (i : ℚ) + 1) / 2 = (2 * (j : ℚ) + 1) / 2 :=
      congrArg Prod.fst h
    field_simp at h1
    exact_mod_cast h1
  · intro i
    have hpos : (0 : ℚ) < 2 * (i : ℚ) + 1 := by positivity
    have hne0 : (2 * (i : ℚ) + 1) / 2 ≠ 0 := by
      intro h
      rw [div_eq_zero_iff] at h
      rcases h with h | h
      · linarith
      · norm_num at h
    have hne3 : (2 * (i : ℚ) + 1) / 2 ≠ 3 := by
      intro h
      have h6 : 2 * (i : ℚ) + 1 = 6 := by
        field_simp at h
        linarith
      have hcast : ((2 * i : Nat) : ℚ) = ((5 : Nat) : ℚ) := by
        push_cast
        linarith
      have := Nat.cast_injective hcast
      omega
    norm_num [prmTwoNodes, PRM.fresh, Lookup.containsKey, Point.toWkt, halfIntStream,
      Prod.ext_iff]
    constructor
    · intro h
      exact absurd h.symm hne0
    · intro h
      exact absurd h.symm hne3
  · intro q hq
    simp only [prmTwoNodes, PRM.fresh, List.mem_cons, List.mem_singleton] at hq
    rcases hq with hq | hq | hq
    · rw [hq]
      norm_num [prmTwoNodes, PRM.fresh, Lookup.containsKey, Point.toWkt, Prod.ext_iff]
    · rw [hq]
      norm_num [prmTwoNodes, PRM.fresh, Lookup.containsKey, Point.toWkt, Prod.ext_iff]
    · exact absurd hq (List.not_mem_nil q)
